import Mathlib

/-!
Verification of the page-layout, position-index and navigation logic of the
pdfPyApp PDF merger/viewer (src/pdf_merger.py), shallowly embedded in Lean.

The embedding models:
- render_all_pages (lines 591-724): the layout loop producing one placement
  per page in single-column, two-up, and two-up facing-cover-right modes,
  the page_positions list (one top offset per page, in page order) and the
  total_render_height value;
- jump_to_page (lines 726-745): page-number validation, the exact jump via
  the position index, and the linear fallback estimate;
- _on_page_up / _on_page_down (lines 783-826): the current-index scan over
  page_positions and the clamped one-index step;
- toggle_two_up / toggle_facing_mode (lines 842-873): the coupling between
  the two-up flag and the facing-cover-right checkbox;
- merge_pdfs (lines 506-548): page-by-page concatenation of the input files.

Pixel coordinates are modelled as rationals; the integer page-number entry is
modelled as Option Int (none standing for a non-numeric entry string).
-/

namespace PdfMerger

/-- Rendered pixel size of one page at the current zoom, as returned by the
external rendering library (pix.width, pix.height). -/
structure PageDim where
  width : ℚ
  height : ℚ
deriving DecidableEq

/-- One placed page: its index, top and left pixel offsets on the canvas and
its rendered size. -/
structure Placement where
  pageIndex : Nat
  topOffset : ℚ
  leftOffset : ℚ
  width : ℚ
  height : ℚ
deriving DecidableEq

/-- The two-up pairing loop of render_all_pages (lines 638-684), structured
by the number r of pages still to place, starting at page index i with the
running offset y.  Each iteration emits one row: a left page at x1 = 10 and,
when a next page exists, a right page at x1 + leftWidth + gap (gap = 20);
the running offset advances by the row height (max of the two page heights,
or the single page height) plus 20. -/
def twoUpRowsF (dims : Nat → PageDim) : Nat → Nat → ℚ → List (List Placement)
  | 0, _, _ => []
  | 1, i, y =>
      [[⟨i, y, 10, (dims i).width, (dims i).height⟩]]
  | r + 2, i, y =>
      [⟨i, y, 10, (dims i).width, (dims i).height⟩,
       ⟨i + 1, y, 10 + (dims i).width + 20, (dims (i + 1)).width, (dims (i + 1)).height⟩]
        :: twoUpRowsF dims r (i + 2) (y + max (dims i).height (dims (i + 1)).height + 20)

/-- The single-column loop of render_all_pages (lines 692-716): one page per
row, horizontally centred in the canvas, the running offset advancing by the
page height plus the fixed 20-unit gap. -/
def singleRowsF (dims : Nat → PageDim) (canvasWidth : ℚ) : Nat → Nat → ℚ → List (List Placement)
  | 0, _, _ => []
  | r + 1, i, y =>
      [⟨i, y, canvasWidth / 2 - (dims i).width / 2, (dims i).width, (dims i).height⟩]
        :: singleRowsF dims canvasWidth r (i + 1) (y + (dims i).height + 20)

/-- The full layout pass of render_all_pages (lines 600-716) as a list of
rows of placements, in the order the source draws them.  With two_up set and
the facing-cover-right checkbox on, the first page is drawn alone on the
right side (at x2 = 10 + width + gap) and pairing starts at index 1;
otherwise two-up pairs from index 0; otherwise the single-column loop runs.
All modes start from the initial running offset y = 10. -/
def layoutRows (dims : Nat → PageDim) (n : Nat) (two_up facing : Bool)
    (canvasWidth : ℚ) : List (List Placement) :=
  if two_up then
    if facing = true ∧ 0 < n then
      [⟨0, 10, 10 + (dims 0).width + 20, (dims 0).width, (dims 0).height⟩]
        :: twoUpRowsF dims (n - 1) 1 (10 + (dims 0).height + 20)
    else twoUpRowsF dims n 0 10
  else singleRowsF dims canvasWidth n 0 10

/-- The page_positions list built by render_all_pages: one top offset per
page, appended in page order (lines 603, 629, 662, 667, 706). -/
def layoutPositions (dims : Nat → PageDim) (n : Nat) (two_up facing : Bool)
    (canvasWidth : ℚ) : List ℚ :=
  ((layoutRows dims n two_up facing canvasWidth).flatten).map Placement.topOffset

/-- Final running offset of the two-up loop: the value of y_offset after the
loop at lines 638-684 finishes. -/
def twoUpEndYF (dims : Nat → PageDim) : Nat → Nat → ℚ → ℚ
  | 0, _, y => y
  | 1, i, y => y + (dims i).height + 20
  | r + 2, i, y =>
      twoUpEndYF dims r (i + 2) (y + max (dims i).height (dims (i + 1)).height + 20)

/-- Final running offset of the single-column loop (lines 692-716). -/
def singleEndYF (dims : Nat → PageDim) : Nat → Nat → ℚ → ℚ
  | 0, _, y => y
  | r + 1, i, y => singleEndYF dims r (i + 1) (y + (dims i).height + 20)

/-- Final y_offset of the whole layout pass, per mode. -/
def layoutEndY (dims : Nat → PageDim) (n : Nat) (two_up facing : Bool) : ℚ :=
  if two_up then
    if facing = true ∧ 0 < n then twoUpEndYF dims (n - 1) 1 (10 + (dims 0).height + 20)
    else twoUpEndYF dims n 0 10
  else singleEndYF dims n 0 10

/-- total_render_height as set at line 719: max(y_offset, 1). -/
def total_render_height (dims : Nat → PageDim) (n : Nat) (two_up facing : Bool) : ℚ :=
  max (layoutEndY dims n two_up facing) 1

/-- Height of one emitted row as the source accumulates it: max of the two
heights for a pair, the single page height for a lone page. -/
def rowHeight : List Placement → ℚ
  | [l, r] => max l.height r.height
  | [l] => l.height
  | _ => 0

/-- Top offset shared by the placements of a row. -/
def rowTop (r : List Placement) : ℚ :=
  ((r.map Placement.topOffset).headD 0)

/-- Outcome of a jump_to_page call: the warning dialog shown, or the scroll
fraction passed to yview_moveto. -/
inductive JumpOutcome where
  | invalidInput : JumpOutcome
  | invalidPage : JumpOutcome
  | moved : ℚ → JumpOutcome
deriving DecidableEq

/-- jump_to_page (lines 726-745).  The entry string is modelled as
Option Int: none when int() raises ValueError (non-numeric entry).  The
second component is the scroll state after the call, with cur the fractional
scroll position before it; the warning branches leave it unchanged. -/
def jump_to_page (entry : Option ℤ) (total_pages : Nat) (page_positions : List ℚ)
    (total_h : ℚ) (cur : ℚ) : JumpOutcome × ℚ :=
  match entry with
  | none => (JumpOutcome.invalidInput, cur)
  | some v =>
      let page_num : ℤ := v - 1
      if 0 ≤ page_num ∧ page_num < (total_pages : ℤ) then
        if page_positions.length = total_pages then
          let y := page_positions.getD page_num.toNat 0
          (JumpOutcome.moved (y / total_h), y / total_h)
        else
          let y : ℚ := (page_num : ℚ) * 300
          (JumpOutcome.moved (y / ((total_pages : ℚ) * 300)),
           y / ((total_pages : ℚ) * 300))
      else (JumpOutcome.invalidPage, cur)

/-- The current-index scan shared by _on_page_up and _on_page_down
(lines 790-795, 813-818): idx starts at 0 and is set to each position index
whose top offset is at most top_y + 1, stopping at the first that is not. -/
def findIdxGo : List ℚ → ℚ → Nat → Nat → Nat
  | [], _, _, idx => idx
  | py :: rest, t, i, idx =>
      if py ≤ t + 1 then findIdxGo rest t (i + 1) i else idx

/-- Index of the page the viewport top currently sits on, per the scan. -/
def find_current_idx (page_positions : List ℚ) (top_y : ℚ) : Nat :=
  findIdxGo page_positions top_y 0 0

/-- Target index of _on_page_up (line 796): max(0, idx - 1), which is
truncated subtraction on Nat. -/
def page_up_target (page_positions : List ℚ) (top_y : ℚ) : Nat :=
  find_current_idx page_positions top_y - 1

/-- Target index of _on_page_down (line 819): min(len - 1, idx + 1). -/
def page_down_target (page_positions : List ℚ) (top_y : ℚ) : Nat :=
  min (page_positions.length - 1) (find_current_idx page_positions top_y + 1)

/-- Top offset the PageUp handler scrolls to (line 797). -/
def page_up_y (page_positions : List ℚ) (top_y : ℚ) : ℚ :=
  page_positions.getD (page_up_target page_positions top_y) 0

/-- Top offset the PageDown handler scrolls to (line 820). -/
def page_down_y (page_positions : List ℚ) (top_y : ℚ) : ℚ :=
  page_positions.getD (page_down_target page_positions top_y) 0

/-- The target index the specification prescribes for pageStep: step by one
page normally and by two pages when two-up mode is active, then clamp to
[0, pageCount - 1].  Stated from the spec text for comparison with the
handlers above. -/
def pageStepSpecTarget (idx len : Nat) (dir : ℤ) (twoUpActive : Bool) : Nat :=
  (min (max ((idx : ℤ) + dir * (if twoUpActive then 2 else 1)) 0) ((len : ℤ) - 1)).toNat

/-- The layout-mode flags: the two_up field (line 50) and the
facing_cover_right checkbox variable (line 52). -/
structure ViewState where
  two_up : Bool
  facing_cover_right : Bool
deriving DecidableEq

/-- toggle_two_up (lines 842-860): flips two_up and, when disabling it, also
clears the facing-cover-right checkbox. -/
def toggle_two_up (s : ViewState) : ViewState :=
  let t := !s.two_up
  ⟨t, if t then s.facing_cover_right else false⟩

/-- toggle_facing_mode (lines 862-873).  The checkbox variable has already
been flipped by the UI when the command callback runs, so the user action is
the flip followed by the handler, which forces two_up on when the checkbox
is now on. -/
def toggle_facing_mode (s : ViewState) : ViewState :=
  let f := !s.facing_cover_right
  if f && !s.two_up then ⟨true, f⟩ else ⟨s.two_up, f⟩

/-- merge_pdfs (lines 506-548): with fewer than two files the handler shows
a warning and returns; otherwise it appends every page of every input file
to the writer in list order, counting pages as it goes.  A page is any
element type; a file is its page list. -/
def merge_pdfs {α : Type} (pdf_files : List (List α)) : Option (List α × Nat) :=
  if pdf_files.length < 2 then none
  else
    some (pdf_files.foldl
      (fun acc f => f.foldl (fun a p => (a.1 ++ [p], a.2 + 1)) acc) ([], 0))

/-- The layout-mode invariant of the spec: the facing-cover-right checkbox
being on implies two-up is active. -/
def ModeInv (s : ViewState) : Prop :=
  s.facing_cover_right = true → s.two_up = true

instance : DecidablePred ModeInv := fun s => by
  unfold ModeInv; infer_instance

/-- Stated from the spec's words, for comparison with the layout engine:
the expected page-index rows of plain two-up pairing starting at page index
i with r pages remaining, namely (i, i+1), (i+2, i+3), and so on, a final
odd page forming a row of its own. -/
def pairIdxF : Nat → Nat → List (List Nat)
  | 0, _ => []
  | 1, i => [[i]]
  | r + 2, i => [i, i + 1] :: pairIdxF r (i + 2)

/-- Accumulating one file's pages into the writer appends the file's page
list and adds its length to the running page count. -/
lemma foldl_add_pages {α : Type} (f : List α) (w : List α) (t : Nat) :
    f.foldl (fun a p => (a.1 ++ [p], a.2 + 1)) (w, t) = (w ++ f, t + f.length) := by
  induction f generalizing w t with
  | nil => simp
  | cons p rest ih =>
      simp only [List.foldl_cons, ih, List.length_cons]
      refine Prod.ext ?_ ?_
      · simp
      · simp; omega

/-- Folding the merge accumulator over a file list concatenates all pages in
list order and sums the page counts. -/
lemma foldl_merge_files {α : Type} (files : List (List α)) (w : List α) (t : Nat) :
    files.foldl (fun acc f => f.foldl (fun a p => (a.1 ++ [p], a.2 + 1)) acc) (w, t)
      = (w ++ files.flatten, t + (files.map List.length).sum) := by
  induction files generalizing w t with
  | nil => simp
  | cons f rest ih =>
      simp only [List.foldl_cons, foldl_add_pages, ih, List.flatten_cons,
        List.map_cons, List.sum_cons]
      refine Prod.ext ?_ ?_
      · simp
      · simp; omega

/-- C10: for every list of at least two readable input PDF files, the merge
operation produces an output whose page sequence is exactly the
concatenation of the input files' page sequences in list order, and the
reported total page count equals the sum of the inputs' page counts. -/
theorem merge_pdfs_concat {α : Type} (pdf_files : List (List α))
    (h : 2 ≤ pdf_files.length) :
    merge_pdfs pdf_files = some (pdf_files.flatten, (pdf_files.map List.length).sum) := by
  unfold merge_pdfs
  rw [if_neg (by omega)]
  rw [foldl_merge_files]
  simp

/-- C10 witness: merging the two concrete files [0] and [1, 2] yields the
page sequence [0, 1, 2] with reported count 3. -/
theorem merge_pdfs_concat_witness :
    merge_pdfs [[0], [1, 2]] = some ([0, 1, 2], 3) := by
  rw [merge_pdfs_concat [[0], [1, 2]] (by decide)]
  rfl

/-- C7: for pageCount 5, SingleColumn mode and uniform rendered page height
100, the computed per-page top offsets are exactly [10, 130, 250, 370, 490]
(gap 20, starting offset 10). -/
theorem single_column_offsets_example :
    layoutPositions (fun _ => ⟨612, 100⟩) 5 false false 800
      = [10, 130, 250, 370, 490] := by
  norm_num [layoutPositions, layoutRows, singleRowsF]

/-- C8: the layout-mode state always satisfies the invariant that
facing-cover-right active implies two-up active: both toggles preserve the
invariant; toggling facing mode on while two-up is off also turns two-up on;
and toggling two-up off also turns facing mode off. -/
theorem toggle_mode_invariant (s : ViewState) :
    (ModeInv s → ModeInv (toggle_two_up s) ∧ ModeInv (toggle_facing_mode s)) ∧
    (s.two_up = false → s.facing_cover_right = false →
      (toggle_facing_mode s).two_up = true ∧
      (toggle_facing_mode s).facing_cover_right = true) ∧
    (s.two_up = true → (toggle_two_up s).two_up = false ∧
      (toggle_two_up s).facing_cover_right = false) := by
  obtain ⟨t, f⟩ := s
  revert t f
  decide

/-- C8 witness: the toggle properties instantiated at the single-column,
facing-off state. -/
theorem toggle_mode_invariant_witness :
    ModeInv (⟨false, false⟩ : ViewState) ∧
    ModeInv (toggle_two_up ⟨false, false⟩) ∧
    ModeInv (toggle_facing_mode ⟨false, false⟩) ∧
    (toggle_facing_mode ⟨false, false⟩).two_up = true ∧
    (toggle_facing_mode ⟨false, false⟩).facing_cover_right = true ∧
    (toggle_two_up ⟨true, true⟩).two_up = false ∧
    (toggle_two_up ⟨true, true⟩).facing_cover_right = false := by
  have h1 := toggle_mode_invariant ⟨false, false⟩
  have h2 := toggle_mode_invariant ⟨true, true⟩
  refine ⟨by decide, (h1.1 (by decide)).1, (h1.1 (by decide)).2,
    (h1.2.1 rfl rfl).1, (h1.2.1 rfl rfl).2, (h2.2.2 rfl).1, (h2.2.2 rfl).2⟩

/-- The two-up loop places every remaining page exactly once: the row
lengths of its output sum to the number of pages it consumed. -/
lemma twoUpRowsF_sum_length (dims : Nat → PageDim) :
    ∀ (r i : Nat) (y : ℚ), ((twoUpRowsF dims r i y).map List.length).sum = r
  | 0, _, _ => rfl
  | 1, _, _ => rfl
  | r + 2, i, y => by
      simp [twoUpRowsF, twoUpRowsF_sum_length dims r]
      omega

/-- The single-column loop places every remaining page exactly once. -/
lemma singleRowsF_sum_length (dims : Nat → PageDim) (cw : ℚ) :
    ∀ (r i : Nat) (y : ℚ), ((singleRowsF dims cw r i y).map List.length).sum = r
  | 0, _, _ => rfl
  | r + 1, i, y => by
      simp [singleRowsF, singleRowsF_sum_length dims cw r]
      omega

/-- After any layout pass, in every mode, the position index has exactly one
entry per page. -/
lemma layoutPositions_length (dims : Nat → PageDim) (n : Nat)
    (two_up facing : Bool) (cw : ℚ) :
    (layoutPositions dims n two_up facing cw).length = n := by
  unfold layoutPositions layoutRows
  rw [List.length_map, List.length_flatten]
  split_ifs with h1 h2
  · simp [twoUpRowsF_sum_length]
    omega
  · rw [twoUpRowsF_sum_length]
  · rw [singleRowsF_sum_length]

/-- C2: after any layout pass, in every mode, the position index has exactly
pageCount entries, and jump_to_page uses the exact index only when its
length equals pageCount, otherwise falling back to the linear estimate
pageIndex * 300 (giving fraction pageIndex * 300 / (pageCount * 300)). -/
theorem position_index_complete_and_fallback :
    (∀ (dims : Nat → PageDim) (n : Nat) (two_up facing : Bool) (cw : ℚ),
      (layoutPositions dims n two_up facing cw).length = n) ∧
    (∀ (v : ℤ) (total : Nat) (ps : List ℚ) (H cur : ℚ),
      1 ≤ v → v ≤ (total : ℤ) →
      (ps.length = total →
        jump_to_page (some v) total ps H cur
          = (JumpOutcome.moved (ps.getD (v - 1).toNat 0 / H),
             ps.getD (v - 1).toNat 0 / H)) ∧
      (ps.length ≠ total →
        jump_to_page (some v) total ps H cur
          = (JumpOutcome.moved ((((v - 1 : ℤ) : ℚ) * 300) / ((total : ℚ) * 300)),
             (((v - 1 : ℤ) : ℚ) * 300) / ((total : ℚ) * 300)))) := by
  refine ⟨layoutPositions_length, ?_⟩
  intro v total ps H cur h1 h2
  constructor
  · intro hlen
    simp only [jump_to_page]
    rw [if_pos (by constructor <;> omega), if_pos hlen]
  · intro hlen
    simp only [jump_to_page]
    rw [if_pos (by constructor <;> omega), if_neg hlen]

/-- C2 witness: a concrete complete index (two-up facing layout of 5 pages,
5 entries) together with a concrete exact jump through a complete index and
a concrete linear fallback through a stale one. -/
theorem position_index_complete_and_fallback_witness :
    (layoutPositions (fun _ => ⟨612, 100⟩) 5 true true 800).length = 5 ∧
    jump_to_page (some 2) 3 [10, 130, 250] 280 0
      = (JumpOutcome.moved (130 / 280), 130 / 280) ∧
    jump_to_page (some 2) 3 [10] 280 0
      = (JumpOutcome.moved (1 / 3), 1 / 3) := by
  have hA := position_index_complete_and_fallback.1 (fun _ => ⟨612, 100⟩) 5 true true 800
  have hB := (position_index_complete_and_fallback.2 2 3 [10, 130, 250] 280 0
    (by omega) (by omega)).1 (by rfl)
  have hC := (position_index_complete_and_fallback.2 2 3 [10] 280 0
    (by omega) (by omega)).2 (by simp)
  refine ⟨hA, ?_, ?_⟩
  · simpa using hB
  · norm_num at hC
    exact hC

/-- C1: jump_to_page yields InvalidPage and leaves the scroll state
unchanged for any 1-based page number outside [1, pageCount]; a non-numeric
entry yields InvalidInput with the scroll state unchanged; and for a valid
page number, with the position index complete, it computes and returns the
fraction positionIndex[n-1] / totalHeight. -/
theorem jump_to_page_validation (total : Nat) (ps : List ℚ) (H cur : ℚ) :
    (∀ v : ℤ, ¬(1 ≤ v ∧ v ≤ (total : ℤ)) →
      jump_to_page (some v) total ps H cur = (JumpOutcome.invalidPage, cur)) ∧
    jump_to_page none total ps H cur = (JumpOutcome.invalidInput, cur) ∧
    (∀ v : ℤ, 1 ≤ v → v ≤ (total : ℤ) → ps.length = total →
      jump_to_page (some v) total ps H cur
        = (JumpOutcome.moved (ps.getD (v - 1).toNat 0 / H),
           ps.getD (v - 1).toNat 0 / H)) := by
  refine ⟨?_, rfl, ?_⟩
  · intro v hv
    simp only [jump_to_page]
    rw [if_neg (by omega)]
  · intro v h1 h2 hlen
    simp only [jump_to_page]
    rw [if_pos (by constructor <;> omega), if_pos hlen]

/-- C1 witness: with 3 pages and index [10, 130, 250] of height 280, page
number 5 is rejected as InvalidPage leaving the scroll state at 0, a
non-numeric entry is rejected as InvalidInput, and page number 2 moves to
fraction 130 / 280. -/
theorem jump_to_page_validation_witness :
    jump_to_page (some 5) 3 [10, 130, 250] 280 0 = (JumpOutcome.invalidPage, 0) ∧
    jump_to_page none 3 [10, 130, 250] 280 0 = (JumpOutcome.invalidInput, 0) ∧
    jump_to_page (some 2) 3 [10, 130, 250] 280 0
      = (JumpOutcome.moved (130 / 280), 130 / 280) := by
  have h := jump_to_page_validation 3 [10, 130, 250] 280 0
  refine ⟨h.1 5 (by omega), h.2.1, ?_⟩
  have h3 := h.2.2 2 (by omega) (by omega) (by rfl)
  simpa using h3

/-- Unfolding step for the single-column position list: the first remaining
page records the running offset y and the loop continues at y plus that
page's height plus the 20-unit gap. -/
lemma singlePositions_cons (dims : Nat → PageDim) (cw : ℚ) (r i : Nat) (y : ℚ) :
    ((singleRowsF dims cw (r + 1) i y).flatten).map Placement.topOffset
      = y :: ((singleRowsF dims cw r (i + 1)
          (y + (dims i).height + 20)).flatten).map Placement.topOffset := by
  simp [singleRowsF]

/-- The first single-column position is the starting offset. -/
lemma singlePositions_head (dims : Nat → PageDim) (cw : ℚ) (r i : Nat) (y : ℚ)
    (h : 1 ≤ r) :
    (((singleRowsF dims cw r i y).flatten).map Placement.topOffset).head? = some y := by
  match r, h with
  | r + 1, _ => rw [singlePositions_cons]; rfl

/-- A list whose optional head is y has y at position 0. -/
lemma getD_zero_of_head (l : List ℚ) (y : ℚ) (h : l.head? = some y) :
    l.getD 0 0 = y := by
  cases l <;> simp_all

/-- With positive page heights the single-column position list is strictly
increasing. -/
lemma singlePositions_chain (dims : Nat → PageDim) (cw : ℚ)
    (hpos : ∀ j, 0 < (dims j).height) :
    ∀ (r i : Nat) (y : ℚ),
      List.Chain' (· < ·) (((singleRowsF dims cw r i y).flatten).map Placement.topOffset)
  | 0, i, y => by simp [singleRowsF]
  | r + 1, i, y => by
      rw [singlePositions_cons]
      refine List.chain'_cons'.mpr ⟨?_, singlePositions_chain dims cw hpos r (i + 1) _⟩
      intro z hz
      match r with
      | 0 => simp [singleRowsF] at hz
      | r' + 1 =>
          rw [singlePositions_head dims cw (r' + 1) (i + 1) _ (by omega)] at hz
          simp only [Option.mem_def, Option.some.injEq] at hz
          have hh := hpos i
          rw [← hz]
          linarith

/-- Successive single-column positions differ by the earlier page's height
plus the 20-unit gap. -/
lemma singlePositions_getD (dims : Nat → PageDim) (cw : ℚ) :
    ∀ (r i : Nat) (y : ℚ) (k : Nat), k + 1 < r →
      ((((singleRowsF dims cw r i y).flatten).map Placement.topOffset).getD (k + 1) 0)
        = ((((singleRowsF dims cw r i y).flatten).map Placement.topOffset).getD k 0)
            + (dims (i + k)).height + 20
  | 0, i, y, k, hk => by omega
  | r + 1, i, y, 0, hk => by
      rw [singlePositions_cons]
      simp only [List.getD_cons_succ, List.getD_cons_zero]
      have hh := singlePositions_head dims cw r (i + 1)
        (y + (dims i).height + 20) (by omega)
      rw [getD_zero_of_head _ _ hh]
      simp
  | r + 1, i, y, k + 1, hk => by
      rw [singlePositions_cons]
      simp only [List.getD_cons_succ]
      have := singlePositions_getD dims cw r (i + 1) (y + (dims i).height + 20) k (by omega)
      rw [this]
      have hidx : i + 1 + k = i + (k + 1) := by omega
      rw [hidx]

/-- C6: in SingleColumn mode, for every pageCount and every assignment of
positive page heights, the number of placements equals pageCount, the top
offsets strictly increase across successive pages, and each page's top is
the running offset, which advances by that page's height plus the fixed
20-unit gap. -/
theorem single_column_layout (dims : Nat → PageDim) (cw : ℚ) (n : Nat)
    (hpos : ∀ j, 0 < (dims j).height) :
    (layoutPositions dims n false false cw).length = n ∧
    List.Chain' (· < ·) (layoutPositions dims n false false cw) ∧
    (∀ k, k + 1 < n →
      (layoutPositions dims n false false cw).getD (k + 1) 0
        = (layoutPositions dims n false false cw).getD k 0
            + (dims k).height + 20) := by
  have hunf : layoutPositions dims n false false cw
      = ((singleRowsF dims cw n 0 10).flatten).map Placement.topOffset := by
    simp [layoutPositions, layoutRows]
  refine ⟨layoutPositions_length dims n false false cw, ?_, ?_⟩
  · rw [hunf]
    exact singlePositions_chain dims cw hpos n 0 10
  · intro k hk
    rw [hunf]
    have := singlePositions_getD dims cw n 0 10 k hk
    simpa using this

/-- C6 witness: the single-column properties at 5 pages of positive height
100, including the concrete step from offset 10 to offset 130. -/
theorem single_column_layout_witness :
    (layoutPositions (fun _ => ⟨612, 100⟩) 5 false false 800).length = 5 ∧
    List.Chain' (· < ·) (layoutPositions (fun _ => ⟨612, 100⟩) 5 false false 800) ∧
    (layoutPositions (fun _ => ⟨612, 100⟩) 5 false false 800).getD 1 0
      = (layoutPositions (fun _ => ⟨612, 100⟩) 5 false false 800).getD 0 0
          + 100 + 20 := by
  have h := single_column_layout (fun _ => ⟨612, 100⟩) 800 5 (fun j => by norm_num)
  refine ⟨h.1, h.2.1, ?_⟩
  have h2 := h.2.2 0 (by omega)
  simpa using h2

/-- The two-up loop emits one row per iteration: ceil(r / 2) rows for r
remaining pages. -/
lemma twoUpRowsF_length (dims : Nat → PageDim) :
    ∀ (r i : Nat) (y : ℚ), (twoUpRowsF dims r i y).length = (r + 1) / 2
  | 0, _, _ => rfl
  | 1, _, _ => rfl
  | r + 2, i, y => by
      simp [twoUpRowsF, twoUpRowsF_length dims r]
      omega

/-- With an even number of remaining pages every emitted two-up row holds
exactly two placements. -/
lemma twoUpRowsF_even_rows (dims : Nat → PageDim) :
    ∀ (r i : Nat) (y : ℚ), r % 2 = 0 →
      ∀ row ∈ twoUpRowsF dims r i y, row.length = 2
  | 0, _, _, _ => by simp [twoUpRowsF]
  | 1, _, _, h => by omega
  | r + 2, i, y, h => by
      intro row hrow
      rw [twoUpRowsF] at hrow
      rcases List.mem_cons.mp hrow with hr | hr
      · rw [hr]; rfl
      · exact twoUpRowsF_even_rows dims r (i + 2) _ (by omega) row hr

/-- With an odd number of remaining pages the final two-up row holds exactly
one placement, placed as a left page at the fixed margin 10. -/
lemma twoUpRowsF_odd_last (dims : Nat → PageDim) :
    ∀ (r i : Nat) (y : ℚ), r % 2 = 1 →
      ∃ p : Placement, (twoUpRowsF dims r i y).getLast? = some [p] ∧
        p.leftOffset = 10
  | 0, _, _, h => by omega
  | 1, i, y, _ => ⟨⟨i, y, 10, (dims i).width, (dims i).height⟩, rfl, rfl⟩
  | r + 2, i, y, h => by
      obtain ⟨p, hlast, hoff⟩ := twoUpRowsF_odd_last dims r (i + 2)
        (y + max (dims i).height (dims (i + 1)).height + 20) (by omega)
      refine ⟨p, ?_, hoff⟩
      rw [twoUpRowsF]
      have hne : twoUpRowsF dims r (i + 2)
          (y + max (dims i).height (dims (i + 1)).height + 20) ≠ [] := by
        intro hnil
        rw [hnil] at hlast
        simp at hlast
      obtain ⟨row, rest, hEq⟩ := List.exists_cons_of_ne_nil hne
      rw [hEq, List.getLast?_cons_cons]
      rw [hEq] at hlast
      exact hlast

/-- Every paired two-up row has the left page at the fixed margin 10, the
right page at margin + leftWidth + gap, both sharing the row's top offset,
and the row height is the max of the two page heights. -/
lemma twoUpRowsF_pair_geometry (dims : Nat → PageDim) :
    ∀ (r i : Nat) (y : ℚ), ∀ row ∈ twoUpRowsF dims r i y, ∀ l rr : Placement,
      row = [l, rr] →
        l.leftOffset = 10 ∧ rr.leftOffset = 10 + l.width + 20 ∧
        rr.topOffset = l.topOffset ∧ rowHeight row = max l.height rr.height
  | 0, _, _ => by simp [twoUpRowsF]
  | 1, i, y => by
      intro row hrow l rr hpair
      subst hpair
      rw [twoUpRowsF] at hrow
      simp at hrow
  | r + 2, i, y => by
      intro row hrow l rr hpair
      subst hpair
      rw [twoUpRowsF] at hrow
      rcases List.mem_cons.mp hrow with hr | hr
      · simp only [List.cons.injEq, and_true] at hr
        obtain ⟨h1, h2⟩ := hr
        subst h1
        subst h2
        exact ⟨rfl, rfl, rfl, rfl⟩
      · exact twoUpRowsF_pair_geometry dims r (i + 2) _ _ hr l rr rfl

/-- The first row emitted by the two-up loop sits at the running offset. -/
lemma twoUpRowsF_head_top (dims : Nat → PageDim) (r i : Nat) (y : ℚ) :
    ∀ row ∈ (twoUpRowsF dims r i y).head?, rowTop row = y := by
  match r with
  | 0 => simp [twoUpRowsF]
  | 1 => intro row hrow; simp [twoUpRowsF] at hrow; rw [← hrow]; rfl
  | r + 2 => intro row hrow; simp [twoUpRowsF] at hrow; rw [← hrow]; rfl

/-- Successive two-up rows advance by the earlier row's height (the max of
its page heights for a pair, the page height for a lone page) plus 20. -/
lemma twoUpRowsF_chain (dims : Nat → PageDim) :
    ∀ (r i : Nat) (y : ℚ),
      List.Chain' (fun r1 r2 => rowTop r2 = rowTop r1 + rowHeight r1 + 20)
        (twoUpRowsF dims r i y)
  | 0, _, _ => by simp [twoUpRowsF]
  | 1, _, _ => by simp [twoUpRowsF]
  | r + 2, i, y => by
      rw [twoUpRowsF]
      refine List.chain'_cons'.mpr ⟨?_, twoUpRowsF_chain dims r (i + 2) _⟩
      intro row hrow
      have := twoUpRowsF_head_top dims r (i + 2)
        (y + max (dims i).height (dims (i + 1)).height + 20) row hrow
      rw [this]
      rfl

/-- C5: in TwoUp mode with facing off, for every even pageCount the
placements form pageCount / 2 rows of exactly two pages each, with the left
page at the fixed margin 10, the right page at margin + leftWidth + gap,
both sharing the row top, and rows advancing by the max of the two page
heights plus the gap; for every odd pageCount the final row contains
exactly one page placed alone as a left page. -/
theorem two_up_layout (dims : Nat → PageDim) (cw : ℚ) (n : Nat) :
    (n % 2 = 0 → (layoutRows dims n true false cw).length = n / 2 ∧
      ∀ row ∈ layoutRows dims n true false cw, row.length = 2) ∧
    (n % 2 = 1 → ∃ p : Placement,
      (layoutRows dims n true false cw).getLast? = some [p] ∧
      p.leftOffset = 10) ∧
    (∀ row ∈ layoutRows dims n true false cw, ∀ l rr : Placement,
      row = [l, rr] →
        l.leftOffset = 10 ∧ rr.leftOffset = 10 + l.width + 20 ∧
        rr.topOffset = l.topOffset ∧ rowHeight row = max l.height rr.height) ∧
    List.Chain' (fun r1 r2 => rowTop r2 = rowTop r1 + rowHeight r1 + 20)
      (layoutRows dims n true false cw) := by
  have hunf : layoutRows dims n true false cw = twoUpRowsF dims n 0 10 := by
    simp [layoutRows]
  rw [hunf]
  refine ⟨?_, ?_, twoUpRowsF_pair_geometry dims n 0 10, twoUpRowsF_chain dims n 0 10⟩
  · intro he
    refine ⟨?_, twoUpRowsF_even_rows dims n 0 10 he⟩
    rw [twoUpRowsF_length]
    omega
  · intro ho
    exact twoUpRowsF_odd_last dims n 0 10 ho

/-- C5 witness: a concrete even case (4 pages of height 100: two rows of
two placements) and a concrete odd case (5 pages: the final row is a single
left-margin page), instantiating the theorem at both counts. -/
theorem two_up_layout_witness :
    (layoutRows (fun _ => ⟨612, 100⟩) 4 true false 800).length = 2 ∧
    (∀ row ∈ layoutRows (fun _ => ⟨612, 100⟩) 4 true false 800, row.length = 2) ∧
    (∃ p : Placement,
      (layoutRows (fun _ => ⟨612, 100⟩) 5 true false 800).getLast? = some [p] ∧
      p.leftOffset = 10) := by
  have h4 := two_up_layout (fun _ => ⟨612, 100⟩) 800 4
  have h5 := two_up_layout (fun _ => ⟨612, 100⟩) 800 5
  exact ⟨(h4.1 rfl).1, (h4.1 rfl).2, h5.2.1 rfl⟩

/-- The page indices of the two-up loop's rows are exactly the pairs
prescribed by the spec: (i, i+1), (i+2, i+3), ... with a lone final odd
page. -/
lemma twoUpRowsF_idx (dims : Nat → PageDim) :
    ∀ (r i : Nat) (y : ℚ),
      (twoUpRowsF dims r i y).map (fun row => row.map Placement.pageIndex)
        = pairIdxF r i
  | 0, _, _ => rfl
  | 1, _, _ => rfl
  | r + 2, i, y => by
      simp [twoUpRowsF, pairIdxF, twoUpRowsF_idx dims r]

/-- C4: in TwoUpFacingCoverRight mode, for every pageCount at least 1, page
index 0 is placed alone in its own first row on the right side (at
x = margin + firstPageWidth + gap, where a left page would sit at the
margin 10), and pairing then resumes for the remaining pages so that the
subsequent page-index rows are (1,2), (3,4), and so on. -/
theorem facing_cover_right_layout (dims : Nat → PageDim) (cw : ℚ) (n : Nat)
    (h : 1 ≤ n) :
    (∃ p : Placement, (layoutRows dims n true true cw).head? = some [p] ∧
      p.pageIndex = 0 ∧ p.topOffset = 10 ∧
      p.leftOffset = 10 + (dims 0).width + 20) ∧
    (layoutRows dims n true true cw).map (fun row => row.map Placement.pageIndex)
      = [0] :: pairIdxF (n - 1) 1 := by
  have hunf : layoutRows dims n true true cw
      = [⟨0, 10, 10 + (dims 0).width + 20, (dims 0).width, (dims 0).height⟩]
          :: twoUpRowsF dims (n - 1) 1 (10 + (dims 0).height + 20) := by
    unfold layoutRows
    rw [if_pos rfl, if_pos ⟨rfl, by omega⟩]
  rw [hunf]
  constructor
  · exact ⟨_, rfl, rfl, rfl, rfl⟩
  · simp [twoUpRowsF_idx dims (n - 1) 1]

/-- C4 witness: for the concrete five-page document the facing layout's
page-index rows are exactly row0 = {0}, row1 = {1,2}, row2 = {3,4}, with
page 0 alone on the right of its row. -/
theorem facing_cover_right_layout_witness :
    (∃ p : Placement,
      (layoutRows (fun _ => ⟨612, 100⟩) 5 true true 800).head? = some [p] ∧
      p.pageIndex = 0 ∧ p.topOffset = 10 ∧ p.leftOffset = 10 + 612 + 20) ∧
    (layoutRows (fun _ => ⟨612, 100⟩) 5 true true 800).map
        (fun row => row.map Placement.pageIndex)
      = [[0], [1, 2], [3, 4]] := by
  have h := facing_cover_right_layout (fun _ => ⟨612, 100⟩) 800 5 (by omega)
  refine ⟨h.1, ?_⟩
  rw [h.2]
  rfl

/-- The total rendered height is positive: it is max(y_offset, 1). -/
lemma total_render_height_pos (dims : Nat → PageDim) (n : Nat)
    (two_up facing : Bool) : 0 < total_render_height dims n two_up facing :=
  lt_of_lt_of_le one_pos (le_max_right _ 1)

/-- C9: for every valid page number after a layout pass (whose position
index is complete by construction), jump_to_page returns a fraction whose
product with the total height rounds back to that page's recorded top
offset within the 20-unit page-gap tolerance. -/
theorem jump_round_trip (dims : Nat → PageDim) (n : Nat) (two_up facing : Bool)
    (cw : ℚ) (v : ℤ) (cur : ℚ) (h1 : 1 ≤ v) (h2 : v ≤ (n : ℤ)) :
    ∃ frac : ℚ,
      jump_to_page (some v) n (layoutPositions dims n two_up facing cw)
          (total_render_height dims n two_up facing) cur
        = (JumpOutcome.moved frac, frac) ∧
      |((round (frac * total_render_height dims n two_up facing) : ℤ) : ℚ)
          - (layoutPositions dims n two_up facing cw).getD (v - 1).toNat 0| ≤ 20 := by
  have hlen := layoutPositions_length dims n two_up facing cw
  refine ⟨(layoutPositions dims n two_up facing cw).getD (v - 1).toNat 0
      / total_render_height dims n two_up facing, ?_, ?_⟩
  · simp only [jump_to_page]
    rw [if_pos (by constructor <;> omega), if_pos hlen]
  · have hH : (0 : ℚ) < total_render_height dims n two_up facing :=
      total_render_height_pos dims n two_up facing
    rw [div_mul_cancel₀ _ (ne_of_gt hH)]
    have hr := abs_sub_round
      ((layoutPositions dims n two_up facing cw).getD (v - 1).toNat 0)
    rw [abs_sub_comm] at hr
    linarith

/-- C9 witness: the round trip at the concrete two-page single-column
layout, jumping to page 2. -/
theorem jump_round_trip_witness :
    ∃ frac : ℚ,
      jump_to_page (some 2) 2 (layoutPositions (fun _ => ⟨612, 100⟩) 2 false false 800)
          (total_render_height (fun _ => ⟨612, 100⟩) 2 false false) 0
        = (JumpOutcome.moved frac, frac) ∧
      |((round (frac * total_render_height (fun _ => ⟨612, 100⟩) 2 false false) : ℤ) : ℚ)
          - (layoutPositions (fun _ => ⟨612, 100⟩) 2 false false 800).getD 1 0| ≤ 20 := by
  have h := jump_round_trip (fun _ => ⟨612, 100⟩) 2 false false 800 2 0
    (by omega) (by omega)
  simpa using h

/-- The scanned current index is either inside the position list or equal to
its starting accumulator. -/
lemma findIdxGo_lt (t : ℚ) :
    ∀ (l : List ℚ) (i idx : Nat),
      findIdxGo l t i idx < i + l.length ∨ findIdxGo l t i idx = idx
  | [], i, idx => Or.inr rfl
  | py :: rest, i, idx => by
      rw [findIdxGo]
      by_cases hc : py ≤ t + 1
      · rw [if_pos hc]
        rcases findIdxGo_lt t rest (i + 1) i with h | h
        · left
          simp only [List.length_cons]
          omega
        · left
          rw [h]
          simp only [List.length_cons]
          omega
      · rw [if_neg hc]
        exact Or.inr rfl

/-- On a nonempty position list the scanned current index is a valid page
index. -/
lemma find_current_idx_lt (ps : List ℚ) (t : ℚ) (h : ps ≠ []) :
    find_current_idx ps t < ps.length := by
  have hlen : 0 < ps.length := List.length_pos.mpr h
  rcases findIdxGo_lt t ps 0 0 with h' | h'
  · simpa using h'
  · rw [find_current_idx, h']
    exact hlen

/-- C3 counterexample: in two-up mode (4 pages of height 100, position list
[10, 10, 130, 130], viewport top at 130) the PageUp handler targets index
2 — one position before the scanned index 3 — and stays at offset 130,
whereas a two-page step as claimed would target index 1 at offset 10. -/
theorem page_step_two_up_counterexample :
    page_up_target [10, 10, 130, 130] 130 = 2 ∧
    pageStepSpecTarget (find_current_idx [10, 10, 130, 130] 130) 4 (-1) true = 1 ∧
    page_up_y [10, 10, 130, 130] 130 = 130 ∧
    ([10, 10, 130, 130] : List ℚ).getD 1 0 = 10 ∧
    ¬ (page_up_target [10, 10, 130, 130] 130
        = pageStepSpecTarget (find_current_idx [10, 10, 130, 130] 130) 4 (-1) true) := by
  have hidx : find_current_idx [10, 10, 130, 130] (130 : ℚ) = 3 := by
    norm_num [find_current_idx, findIdxGo]
  refine ⟨?_, ?_, ?_, by norm_num, ?_⟩
  · rw [page_up_target, hidx]
  · rw [hidx]
    rfl
  · rw [page_up_y, page_up_target, hidx]
    norm_num
  · rw [page_up_target, hidx]
    norm_num [pageStepSpecTarget]

/-- C3 as amended: the PageUp and PageDown handlers step the scanned page
index by exactly one position in every layout mode, the scanned index and
both targets always lie in [0, pageCount - 1], and at a document boundary
(PageUp with the scan at index 0, PageDown with the scan at the last index)
the handler rescrolls to the page it is already on — a no-op that surfaces
no error. -/
theorem page_step_amended (ps : List ℚ) (t : ℚ) (h : ps ≠ []) :
    page_up_target ps t = find_current_idx ps t - 1 ∧
    page_down_target ps t = min (ps.length - 1) (find_current_idx ps t + 1) ∧
    find_current_idx ps t < ps.length ∧
    page_up_target ps t < ps.length ∧
    page_down_target ps t < ps.length ∧
    (find_current_idx ps t = 0 → page_up_y ps t = ps.getD 0 0) ∧
    (find_current_idx ps t = ps.length - 1 →
      page_down_y ps t = ps.getD (ps.length - 1) 0) := by
  have hlen : 0 < ps.length := List.length_pos.mpr h
  have hidx := find_current_idx_lt ps t h
  refine ⟨rfl, rfl, hidx, ?_, ?_, ?_, ?_⟩
  · rw [page_up_target]
    omega
  · rw [page_down_target]
    omega
  · intro h0
    rw [page_up_y, page_up_target, h0]
  · intro hlast
    rw [page_down_y, page_down_target, hlast]
    congr 1
    omega

/-- C3 amended witness: with position list [10, 130] and the viewport at
the top (scan index 0), PageUp stays at offset 10 and PageDown moves to
offset 130; both targets are in range. -/
theorem page_step_amended_witness :
    page_up_target [10, 130] 10 = 0 ∧
    page_down_target [10, 130] 10 = 1 ∧
    page_up_y [10, 130] 10 = 10 ∧
    page_down_y [10, 130] 130 = 130 := by
  have hidx : find_current_idx [10, 130] (10 : ℚ) = 0 := by
    norm_num [find_current_idx, findIdxGo]
  have hidx2 : find_current_idx [10, 130] (130 : ℚ) = 1 := by
    norm_num [find_current_idx, findIdxGo]
  have h := page_step_amended [10, 130] 10 (by simp)
  have h2 := page_step_amended [10, 130] 130 (by simp)
  refine ⟨?_, ?_, ?_, ?_⟩
  · rw [h.1, hidx]
  · rw [h.2.1, hidx]
    simp
  · have h6 := h.2.2.2.2.2.1 hidx
    simpa using h6
  · have h7 := h2.2.2.2.2.2.2 (by rw [hidx2]; rfl)
    simpa using h7

end PdfMerger
